import Mathlib

/-!
Verification of the retail-forecast pipeline.

This file shallowly embeds the parts of the repository needed to settle the
stated properties: the scheduled batch feature processor
(`feature_store_batch.py`), the continuous feature processor
(`feature_store.py`), the two transaction producers (`producer.py`,
`producer_batch.py`), the what-if page simulation
(`pages/2_What_If_Analysis.py`), the AI-analyst filter extractor
(`pages/3_AI_Data_Analyst.py`), the smart-sampling policy of the full-corpus
vector-index builder (`scripts/build_vector_db.py`), the record-to-text
templating of both vector backends (`utils/vector_db.py`,
`utils/pinecone_client.py`), the deterministic record IDs of the local
backend, and the set of Redis keys written anywhere in the system
(for the live-data read of `scripts/incremental_build.py`).

Machine floats of the source are modelled as rationals; Python string/number
parsing is modelled by executable functions mirroring CPython behaviour on
the relevant inputs.
-/

namespace RetailForecast

/-! ### Characters, digits and Python-style helpers -/

/-- ASCII decimal digit test (regex `\d`, `str.isdigit` on ASCII). -/
def isDigitCh (c : Char) : Bool := '0' ≤ c && c ≤ '9'

/-- Python whitespace (`\s` of the `re` module, ASCII range; also the
characters stripped by `float()`). -/
def isWsCh (c : Char) : Bool :=
  c = ' ' || c = '\t' || c = '\n' || c = '\r' || c = '\x0b' || c = '\x0c'

/-- Numeric value of a digit character. -/
def digVal (c : Char) : ℕ := c.toNat - '0'.toNat

/-- Natural number denoted by a list of digit characters (most significant
first), as produced by Python `int()` on a digit string. -/
def natOfDigits (l : List Char) : ℕ := l.foldl (fun a c => 10 * a + digVal c) 0

/-- Two-digit zero padding, as in `strftime` `%m`/`%d`/`%U`. -/
def pad2 (n : ℕ) : String := if n < 10 then "0" ++ toString n else toString n

/-! ### Python `dict` built from flattened stream fields

Both stream processors rebuild an event dictionary from the flat
`[key, value, key, value, ...]` field list of a stream message:
`{fields_raw[i]: fields_raw[i+1] for i in range(0, len(fields_raw), 2)}`.
We model the field list as the list of its pairs and the dict as an
association list with unique keys in insertion order (later duplicate
keys overwrite the value in place, as in Python). -/

def dictInsert (d : List (String × String)) (k v : String) :
    List (String × String) :=
  if d.any (fun e => e.1 = k) then
    d.map (fun e => if e.1 = k then (e.1, v) else e)
  else d ++ [(k, v)]

def pairsToDict (ps : List (String × String)) : List (String × String) :=
  ps.foldl (fun d kv => dictInsert d kv.1 kv.2) []

/-- `dict.get(k)` / `dict.get(k, default)` without the default: `none` when
the key is absent. -/
def dictGet (d : List (String × String)) (k : String) : Option String :=
  (d.find? (fun e => e.1 = k)).map (fun e => e.2)

/-! ### Python `float(string)`

`float()` strips surrounding whitespace and accepts an optional sign
followed by a decimal literal (`digits`, `digits.digits`, `.digits`,
`digits.`) with an optional exponent part.  The special spellings
`inf`/`nan` are not needed by any claim and are not modelled.  A `none`
result stands for the `ValueError` Python raises. -/

def parseExpPart (l : List Char) (m : ℚ) : Option ℚ :=
  match l with
  | [] => some m
  | c :: r =>
    if c = 'e' ∨ c = 'E' then
      let (neg, r1) : Bool × List Char :=
        match r with
        | '+' :: r1 => (false, r1)
        | '-' :: r1 => (true, r1)
        | _ => (false, r)
      let ds := r1.takeWhile isDigitCh
      if ds.isEmpty ∨ ¬ (r1.dropWhile isDigitCh).isEmpty then none
      else
        let e := natOfDigits ds
        some (if neg then m / 10 ^ e else m * 10 ^ e)
    else none

def parseMantissa (l : List Char) : Option ℚ :=
  let ip := l.takeWhile isDigitCh
  let r1 := l.dropWhile isDigitCh
  match r1 with
  | '.' :: r2 =>
    let fp := r2.takeWhile isDigitCh
    let r3 := r2.dropWhile isDigitCh
    if ip.isEmpty ∧ fp.isEmpty then none
    else parseExpPart r3
      ((natOfDigits ip : ℚ) + (natOfDigits fp : ℚ) / 10 ^ fp.length)
  | _ => if ip.isEmpty then none else parseExpPart r1 (natOfDigits ip)

def parseFloat (s : String) : Option ℚ :=
  let t := (((s.data.dropWhile isWsCh).reverse.dropWhile isWsCh).reverse)
  match t with
  | '+' :: r => parseMantissa r
  | '-' :: r => (parseMantissa r).map (fun q => -q)
  | r => parseMantissa r

/-! ### Dates: `datetime.strptime(s, "%Y-%m-%d")` and `strftime`

CPython's `_strptime` compiles the format to the regex
`(?P<Y>\d\d\d\d)-(?P<m>1[0-2]|0[1-9]|[1-9])-(?P<d>3[01]|[12]\d|0[1-9]|[1-9])`,
matches it as a prefix, then raises if unconverted data remains or the
matched numbers do not form a valid date. -/

structure PyDate where
  y : ℕ
  m : ℕ
  d : ℕ
deriving DecidableEq, Repr

def isLeap (y : ℕ) : Bool := (y % 4 = 0 && y % 100 ≠ 0) || y % 400 = 0

def daysInMonth (y m : ℕ) : ℕ :=
  if m = 2 then (if isLeap y then 29 else 28)
  else if m = 4 ∨ m = 6 ∨ m = 9 ∨ m = 11 then 30
  else 31

/-- Exactly four digits (regex `\d\d\d\d` for `%Y`). -/
def matchYear4 : List Char → Option (ℕ × List Char)
  | a :: b :: c :: d :: rest =>
    if isDigitCh a && isDigitCh b && isDigitCh c && isDigitCh d then
      some (natOfDigits [a, b, c, d], rest)
    else none
  | _ => none

/-- Regex alternation `1[0-2]|0[1-9]` (two-digit month). -/
def twoDigitMonth (a b : Char) : Option ℕ :=
  if a = '1' && ('0' ≤ b && b ≤ '2') then some (10 + digVal b)
  else if a = '0' && ('1' ≤ b && b ≤ '9') then some (digVal b)
  else none

/-- `%m`: `1[0-2]|0[1-9]|[1-9]`, two-digit alternatives first. -/
def matchMonth : List Char → Option (ℕ × List Char)
  | a :: b :: rest =>
    match twoDigitMonth a b with
    | some v => some (v, rest)
    | none => if '1' ≤ a && a ≤ '9' then some (digVal a, b :: rest) else none
  | [a] => if '1' ≤ a && a ≤ '9' then some (digVal a, []) else none
  | [] => none

/-- Regex alternation `3[01]|[12]\d|0[1-9]` (two-digit day). -/
def twoDigitDay (a b : Char) : Option ℕ :=
  if a = '3' && (b = '0' || b = '1') then some (30 + digVal b)
  else if (a = '1' || a = '2') && isDigitCh b then some (10 * digVal a + digVal b)
  else if a = '0' && ('1' ≤ b && b ≤ '9') then some (digVal b)
  else none

/-- `%d`: `3[01]|[12]\d|0[1-9]|[1-9]`, two-digit alternatives first. -/
def matchDay : List Char → Option (ℕ × List Char)
  | a :: b :: rest =>
    match twoDigitDay a b with
    | some v => some (v, rest)
    | none => if '1' ≤ a && a ≤ '9' then some (digVal a, b :: rest) else none
  | [a] => if '1' ≤ a && a ≤ '9' then some (digVal a, []) else none
  | [] => none

/-- `datetime.strptime(s, "%Y-%m-%d")`; `none` models the `ValueError`
(`does not match format`, `unconverted data remains`, `day is out of range
for month`, or a year below `MINYEAR`). -/
def strptimeYmd (s : String) : Option PyDate :=
  match matchYear4 s.data with
  | some (y, '-' :: r1) =>
    match matchMonth r1 with
    | some (m, '-' :: r2) =>
      match matchDay r2 with
      | some (d, []) =>
        if 1 ≤ y ∧ d ≤ daysInMonth y m then some ⟨y, m, d⟩ else none
      | _ => none
    | _ => none
  | _ => none

/-- `strftime('%Y-%m-%d')` / `str(date)` (years in this system's data have
four digits). -/
def isoOf (dt : PyDate) : String :=
  toString dt.y ++ "-" ++ pad2 dt.m ++ "-" ++ pad2 dt.d

/-- Day of year, 1-based. -/
def dayOfYear (dt : PyDate) : ℕ :=
  dt.d + ((List.range dt.m).filter (fun k => 1 ≤ k)).foldl
    (fun a k => a + daysInMonth dt.y k) 0

/-- Day of week of January 1st of year `y`, Sunday = 0 (Gauss). -/
def jan1Dow (y : ℕ) : ℕ :=
  (1 + 5 * ((y - 1) % 4) + 4 * ((y - 1) % 100) + 6 * ((y - 1) % 400)) % 7

/-- Day of week, Sunday = 0 (the `%w` convention used by `%U`). -/
def dowSun (dt : PyDate) : ℕ := (jan1Dow dt.y + (dayOfYear dt - 1)) % 7

/-- `strftime('%U')`: week of year, Sunday as first day, days before the
first Sunday in week 0. -/
def weekU (dt : PyDate) : ℕ := (dayOfYear dt + 6 - dowSun dt) / 7

/-- Day of week, Monday = 0 (Python `date.weekday()`). -/
def dowMon (dt : PyDate) : ℕ := (dowSun dt + 6) % 7

/-! ### Scheduled batch feature processor (`feature_store_batch.py`)

One run reads backlog messages in batches of 100 until an empty read, and
for each message: rebuilds the event dict, parses `sales`
(`float(data_dict.get('sales', 0.0))` — before any malformed-event check),
acknowledges and skips when `family` or `date` is missing/empty or the date
fails to parse, otherwise increments the three bucket keys, left-pushes the
raw event onto `training_data_buffer`, and acknowledges.  Any exception
aborts the run (`break`); the final `LTRIM training_data_buffer 0 100000`
runs in either case. -/

/-- `INCRBYFLOAT`: the key is created at 0 on first increment. -/
def incrFeature (fs : List (String × ℚ)) (k : String) (v : ℚ) :
    List (String × ℚ) :=
  if fs.any (fun e => e.1 = k) then
    fs.map (fun e => if e.1 = k then (e.1, e.2 + v) else e)
  else fs ++ [(k, v)]

structure BatchState where
  features : List (String × ℚ)
  buffer : List (List (String × String))
  acked : List ℕ
  processed : ℕ
deriving DecidableEq, Repr

def initialBatchState : BatchState := ⟨[], [], [], 0⟩

def dailyKey (fam : String) (dt : PyDate) : String :=
  "feature:sales_daily:" ++ fam ++ ":" ++ isoOf dt

def weeklyKey (fam : String) (dt : PyDate) : String :=
  "feature:sales_weekly:" ++ fam ++ ":" ++ toString dt.y ++ "-W" ++ pad2 (weekU dt)

def monthlyKey (fam : String) (dt : PyDate) : String :=
  "feature:sales_monthly:" ++ fam ++ ":" ++ toString dt.y ++ "-" ++ pad2 dt.m

/-- One message of the batch loop (`feature_store_batch.py` lines 54-92).
`none` models an exception escaping to the outer handler (which breaks the
run); the only exception arising from message data is the `float()` of a
present, non-numeric `sales` field. -/
def batchStep (st : BatchState) (mid : ℕ) (fields : List (String × String)) :
    Option BatchState :=
  let d := pairsToDict fields
  let famOpt := dictGet d "family"
  let dateOpt := dictGet d "date"
  let salesOpt : Option ℚ :=
    match dictGet d "sales" with
    | none => some 0
    | some s => parseFloat s
  match salesOpt with
  | none => none
  | some sales =>
    match famOpt, dateOpt with
    | some fam, some ds =>
      if fam = "" ∨ ds = "" then some { st with acked := st.acked ++ [mid] }
      else
        match strptimeYmd ds with
        | none => some { st with acked := st.acked ++ [mid] }
        | some dt =>
          let fs1 := incrFeature st.features (dailyKey fam dt) sales
          let fs2 := incrFeature fs1 (weeklyKey fam dt) sales
          let fs3 := incrFeature fs2 (monthlyKey fam dt) sales
          some { features := fs3
                 buffer := d :: st.buffer
                 acked := st.acked ++ [mid]
                 processed := st.processed + 1 }
    | _, _ => some { st with acked := st.acked ++ [mid] }

/-- The processing loop over the available backlog; an exception breaks out,
leaving the remaining messages unprocessed. -/
def runMsgs (st : BatchState) : List (ℕ × List (String × String)) → BatchState
  | [] => st
  | m :: ms =>
    match batchStep st m.1 m.2 with
    | none => st
    | some st' => runMsgs st' ms

/-- A full run of the batch processor: process the backlog, then
`LTRIM training_data_buffer 0 100000` (keep list indices 0-100000). -/
def batchRun (st : BatchState) (msgs : List (ℕ × List (String × String))) :
    BatchState :=
  let st' := runMsgs st msgs
  { st' with buffer := st'.buffer.take 100001 }

/-- The message's `sales` field is absent, or parses as a Python float. -/
def salesFieldOk (fields : List (String × String)) : Bool :=
  match dictGet (pairsToDict fields) "sales" with
  | none => true
  | some s => (parseFloat s).isSome

/-- Malformed per the processor's policy: `family` or `date` missing (or
empty, which is falsy in Python), or the date failing `strptime`. -/
def isMalformedEvent (fields : List (String × String)) : Bool :=
  let d := pairsToDict fields
  match dictGet d "family", dictGet d "date" with
  | some fam, some ds =>
    fam = "" || ds = "" || (strptimeYmd ds).isNone
  | _, _ => true

/-! ### Continuous feature processor (`feature_store.py`)

The long-running consumer: per message it rebuilds the event dict, reads
`family` with `data_dict.get('family')` (no malformed-event filtering: a
missing family becomes Python `None` and is interpolated as the text
`None`), computes `sales = float(data_dict.get('sales'))` — which raises
when `sales` is missing (`float(None)`) or non-numeric — increments
`feature:sales_volume:{family}` and acknowledges.  An exception is caught
by the outer handler, which sleeps and continues the outer loop, so the
rest of the current batch is not processed and nothing was acknowledged
for the failing message. -/

structure ContState where
  features : List (String × ℚ)
  acked : List ℕ
deriving DecidableEq, Repr

/-- Python `f"...{x}"` of an optional string: `None` renders as `"None"`. -/
def pyStrOpt : Option String → String
  | none => "None"
  | some s => s

/-- One message of the continuous loop (`feature_store.py` lines 45-69);
`none` models the exception from `float()`. -/
def contStep (st : ContState) (mid : ℕ) (fields : List (String × String)) :
    Option ContState :=
  let d := pairsToDict fields
  let famOpt := dictGet d "family"
  match (match dictGet d "sales" with
         | none => none
         | some s => parseFloat s) with
  | none => none
  | some sales =>
    some { features :=
             incrFeature st.features ("feature:sales_volume:" ++ pyStrOpt famOpt) sales
           acked := st.acked ++ [mid] }

/-- One read batch of the continuous loop: an exception abandons the rest of
the batch (the outer handler sleeps and re-reads). -/
def contRunBatch (st : ContState) : List (ℕ × List (String × String)) → ContState
  | [] => st
  | m :: ms =>
    match contStep st m.1 m.2 with
    | none => st
    | some st' => contRunBatch st' ms

/-! ### Transaction producers (`producer.py`, `producer_batch.py`)

Both append events to the stream with `XADD` inside a `try`.  The
chronological replay producer (`producer.py` lines 37-64) prints the error
and **breaks** out of its loop on an append failure; the synthetic batch
producer (`producer_batch.py` lines 68-77) prints the error and continues
with the next event.  Append success is modelled by an oracle `ok` on the
event index.  Each loop returns the successfully appended events and the
number of append attempts made. -/

def replayLoop (ok : ℕ → Bool) : List α → ℕ → List α × ℕ
  | [], _ => ([], 0)
  | e :: es, i =>
    if ok i then
      let (s, a) := replayLoop ok es (i + 1)
      (e :: s, a + 1)
    else ([], 1)

def batchLoop (ok : ℕ → Bool) : List α → ℕ → List α × ℕ
  | [], _ => ([], 0)
  | e :: es, i =>
    let (s, a) := batchLoop ok es (i + 1)
    (if ok i then e :: s else s, a + 1)

/-- `producer.py`: a missing corpus (`data/train.csv`) exits fatally before
the loop; the Redis client connects lazily, so there is no startup
connection failure. -/
def replayProducerRun (loadOk : Bool) (ok : ℕ → Bool) (events : List α) :
    Option (List α × ℕ) :=
  if loadOk then some (replayLoop ok events 0) else none

/-- `producer_batch.py`: a failed `ping()` or corpus load exits fatally
before the loop. -/
def batchProducerRun (connOk loadOk : Bool) (ok : ℕ → Bool) (events : List α) :
    Option (List α × ℕ) :=
  if connOk && loadOk then some (batchLoop ok events 0) else none

/-! ### What-if scenario page (`pages/2_What_If_Analysis.py`)

`run_sim` (lines 74-121): for each of 7 consecutive dates it builds a
scenario feature row from the user's inputs and a baseline row that copies
it and overrides `dcoilwtico := 45.0`, `transactions := 1500`,
`onpromotion := 0`; both go through the XGBoost regressor (modelled as an
arbitrary deterministic function) with negative predictions clamped to 0;
totals, absolute delta and percentage delta are reported. -/

structure FeatureRow where
  store_nbr : ℕ
  family_encoded : ℕ
  onpromotion : ℕ
  transactions : ℕ
  dcoilwtico : ℚ
  is_holiday : ℕ
  city_encoded : ℕ
  state_encoded : ℕ
  type_encoded : ℕ
  day_of_week : ℕ
  month : ℕ
  year : ℕ
  day_of_month : ℕ
deriving DecidableEq, Repr

def scenarioRow (store famEnc : ℕ) (promo : Bool) (tx : ℕ) (oil : ℚ)
    (holiday : Bool) (d : PyDate) : FeatureRow :=
  { store_nbr := store
    family_encoded := famEnc
    onpromotion := if promo then 1 else 0
    transactions := tx
    dcoilwtico := oil
    is_holiday := if holiday then 1 else 0
    city_encoded := 0
    state_encoded := 0
    type_encoded := 0
    day_of_week := dowMon d
    month := d.m
    year := d.y
    day_of_month := d.d }

def baselineRow (store famEnc : ℕ) (promo : Bool) (tx : ℕ) (oil : ℚ)
    (holiday : Bool) (d : PyDate) : FeatureRow :=
  { scenarioRow store famEnc promo tx oil holiday d with
      dcoilwtico := 45
      transactions := 1500
      onpromotion := 0 }

structure SimResult where
  total_base : ℚ
  total_scen : ℚ
  diff : ℚ
  pct : ℚ
deriving DecidableEq, Repr

def runSim (predict : FeatureRow → ℚ) (dates : List PyDate) (store famEnc : ℕ)
    (promo : Bool) (tx : ℕ) (oil : ℚ) (holiday : Bool) : SimResult :=
  let preds := dates.map
    (fun d => max 0 (predict (scenarioRow store famEnc promo tx oil holiday d)))
  let baseline_preds := dates.map
    (fun d => max 0 (predict (baselineRow store famEnc promo tx oil holiday d)))
  let total_base := baseline_preds.sum
  let total_scen := preds.sum
  let diff := total_scen - total_base
  { total_base := total_base
    total_scen := total_scen
    diff := diff
    pct := if 0 < total_base then diff / total_base * 100 else 0 }

/-! ### AI Data Analyst filter extraction (`pages/3_AI_Data_Analyst.py`)

`parse_query_filters` (lines 169-198) scans the lowercased question with
`re.search(r'store\s+(\d+)', ...)` and the raw question with
`re.search(r'(\d{4})-(\d{2})-(\d{2})', ...)`, building a dict of the
matches and returning `None` when the dict is empty.  `re.search` finds
the leftmost match; at a given position `\s+` and `\d+` are greedy. -/

/-- Attempt to match `store\s+(\d+)` at the head of the character list,
returning the captured number. -/
def matchStoreAt : List Char → Option ℕ
  | 's' :: 't' :: 'o' :: 'r' :: 'e' :: rest =>
    let ws := rest.takeWhile isWsCh
    let r2 := rest.dropWhile isWsCh
    if ws.isEmpty then none
    else
      let ds := r2.takeWhile isDigitCh
      if ds.isEmpty then none else some (natOfDigits ds)
  | _ => none

/-- Leftmost match of `store\s+(\d+)`. -/
def searchStore : List Char → Option ℕ
  | [] => none
  | c :: t =>
    match matchStoreAt (c :: t) with
    | some n => some n
    | none => searchStore t

/-- Attempt to match `\d{4}-\d{2}-\d{2}` at the head of the character list,
returning the matched text (regex group 0). -/
def matchDateAt : List Char → Option (List Char)
  | a :: b :: c :: d :: '-' :: e :: f :: '-' :: g :: h :: _ =>
    if isDigitCh a && isDigitCh b && isDigitCh c && isDigitCh d &&
       isDigitCh e && isDigitCh f && isDigitCh g && isDigitCh h then
      some [a, b, c, d, '-', e, f, '-', g, h]
    else none
  | _ => none

/-- Leftmost match of `\d{4}-\d{2}-\d{2}`. -/
def searchDate : List Char → Option (List Char)
  | [] => none
  | c :: t =>
    match matchDateAt (c :: t) with
    | some m => some m
    | none => searchDate t

/-- Python `str.lower()` (ASCII case mapping suffices here). -/
def lowerStr (s : String) : String := ⟨s.data.map Char.toLower⟩

structure QueryFilters where
  store_nbr : Option ℕ
  date : Option String
deriving DecidableEq, Repr

/-- `parse_query_filters`: `None` when no pattern matched, otherwise the
dict of the extracted filters. -/
def parse_query_filters (prompt : String) : Option QueryFilters :=
  let sm := searchStore (lowerStr prompt).data
  let dm := searchDate prompt.data
  if sm.isNone ∧ dm.isNone then none
  else some ⟨sm, (dm.map fun l => (⟨l⟩ : String))⟩

/-- The text contains `store` followed by whitespace and digits whose
numeric value is `N` (the claim's "contains `store N`"). -/
def ContainsStoreNumVal (l : List Char) (N : ℕ) : Prop :=
  ∃ pre ws ds post,
    l = pre ++ ['s', 't', 'o', 'r', 'e'] ++ ws ++ ds ++ post ∧
    ws ≠ [] ∧ (∀ c ∈ ws, isWsCh c = true) ∧
    ds ≠ [] ∧ (∀ c ∈ ds, isDigitCh c = true) ∧ natOfDigits ds = N

def ContainsStoreNum (l : List Char) : Prop := ∃ N, ContainsStoreNumVal l N

/-- The ten characters forming a `\d{4}-\d{2}-\d{2}` shape. -/
def IsIsoShaped (d : List Char) : Prop :=
  ∃ a b c x e f g h, d = [a, b, c, x, '-', e, f, '-', g, h] ∧
    isDigitCh a = true ∧ isDigitCh b = true ∧ isDigitCh c = true ∧
    isDigitCh x = true ∧ isDigitCh e = true ∧ isDigitCh f = true ∧
    isDigitCh g = true ∧ isDigitCh h = true

/-- The text contains the substring `d`, which is ISO-date shaped. -/
def ContainsIsoSub (l : List Char) (d : List Char) : Prop :=
  IsIsoShaped d ∧ ∃ pre post, l = pre ++ d ++ post

def ContainsIsoDate (l : List Char) : Prop := ∃ d, ContainsIsoSub l d

/-! ### Smart sampling of the full-corpus builder (`scripts/build_vector_db.py`)

Lines 61-90: all rows dated within 180 days of the corpus maximum are kept;
older rows are grouped by `(store_nbr, family)` and each group of more than
10 rows is replaced by `group.sample(frac=0.20, random_state=42)` — a
pseudo-random subset of `round(0.20 * len)` rows, modelled by an arbitrary
`sampler` function constrained in the theorems — while groups of at most 10
rows are kept whole; the result is re-sorted by date.  For a group of `n`
rows pandas draws `round(0.2 * n)` rows; since `n / 5` is never half-way
this equals `(n + 2) / 5` in integer arithmetic. -/

structure SalesRow where
  date : ℤ
  store_nbr : ℕ
  family : String
  sales : ℚ
deriving DecidableEq, Repr

def rowKey (r : SalesRow) : ℕ × String := (r.store_nbr, r.family)

/-- Distinct `(store_nbr, family)` groups of the old slice. -/
def groupKeys (old : List SalesRow) : List (ℕ × String) :=
  (old.map rowKey).dedup

/-- pandas `sample(frac=0.20)` size: `round(0.2 * n)`. -/
def sampleSize (n : ℕ) : ℕ := (n + 2) / 5

def oldGroup (old : List SalesRow) (k : ℕ × String) : List SalesRow :=
  old.filter (fun r => rowKey r = k)

def smartSample (sampler : List SalesRow → List SalesRow)
    (rows : List SalesRow) : List SalesRow :=
  match (rows.map (fun r => r.date)).maximum with
  | none => []
  | some m =>
    let cutoff := m - 180
    let recent := rows.filter (fun r => cutoff ≤ r.date)
    let old := rows.filter (fun r => r.date < cutoff)
    let sampledOld := (groupKeys old).flatMap (fun k =>
      let g := oldGroup old k
      if 10 < g.length then sampler g else g)
    (recent ++ sampledOld).mergeSort (fun a b => a.date ≤ b.date)

/-! ### Record-to-text templating of the two vector backends

`utils/vector_db.py` `create_record_text` (lines 43-75) and
`utils/pinecone_client.py` `PineconeClient.create_record_text`
(lines 55-78).  A record is modelled with `Option` fields for those the
source guards with `in row` / `pd.notna` (absent-or-NaN collapses to
`none`); Python `%.2f` money formatting is modelled on rationals with
round-half-to-even. -/

structure VecRecord where
  date : PyDate
  store_nbr : ℕ
  family : String
  sales : ℚ
  city : Option String
  state : Option String
  typ : Option String
  onpromotion : Option ℤ
  is_holiday : Option ℤ
  dcoilwtico : Option ℚ
deriving DecidableEq, Repr

/-- Round half to even to an integer (Python float formatting). -/
def roundHalfEven (q : ℚ) : ℤ :=
  let f := ⌊q⌋
  let frac := q - f
  if frac < 1 / 2 then f
  else if 1 / 2 < frac then f + 1
  else if f % 2 = 0 then f else f + 1

/-- Python `f"{x:.2f}"`. -/
def formatFix2 (q : ℚ) : String :=
  let n : ℤ := roundHalfEven (|q| * 100)
  (if q < 0 then "-" else "") ++ toString (n / 100) ++ "." ++ pad2 (n % 100).toNat

/-- `strftime('%A')` weekday names. -/
def weekdayName (dt : PyDate) : String :=
  match dowSun dt with
  | 0 => "Sunday"
  | 1 => "Monday"
  | 2 => "Tuesday"
  | 3 => "Wednesday"
  | 4 => "Thursday"
  | 5 => "Friday"
  | _ => "Saturday"

/-- `utils/vector_db.py` `create_record_text`. -/
def create_record_text (r : VecRecord) : String :=
  let date_str := isoOf r.date ++ " (" ++ weekdayName r.date ++ ")"
  let store_info := "Store: " ++ toString r.store_nbr ++
    (match r.city with
     | some c =>
       " in " ++ c ++ ", " ++ r.state.getD "Unknown" ++
       " (Type " ++ r.typ.getD "Unknown" ++ ")"
     | none => "")
  let sales_info := "Product: " ++ r.family ++ ", Sales: $" ++ formatFix2 r.sales
  let promo :=
    if r.onpromotion.getD 0 = 1 then "Promotion: Yes" else "Promotion: No"
  let holiday :=
    if r.is_holiday.getD 0 = 1 then "Holiday: Yes" else "Holiday: No"
  let oil :=
    match r.dcoilwtico with
    | some p => "Oil Price: $" ++ formatFix2 p
    | none => ""
  let text := "Date: " ++ date_str ++ ", " ++ store_info ++ ", " ++
    sales_info ++ ", " ++ promo ++ ", " ++ holiday
  if oil = "" then text else text ++ ", " ++ oil

/-- Modelled from the spec, §4.11 wording (for comparison with the source
definitions): one sentence of the form `Date: {date} ({weekday}),
Store: {n} in {city}, {state} (Type {type}), Product: {family},
Sales: ${amount}, Promotion: {Yes/No}, Holiday: {Yes/No}[, Oil Price:
${price}]`, the store-location clause present when the city is present and
non-missing, the oil clause when the oil price is; the spec leaves the
rendering of a missing state/type open, and the `Unknown` fallback follows
the data flow of the sentence it describes. -/
def specRecordSentence (r : VecRecord) : String :=
  "Date: " ++ isoOf r.date ++ " (" ++ weekdayName r.date ++ "), Store: " ++
  toString r.store_nbr ++
  (match r.city with
   | some c => " in " ++ c ++ ", " ++ r.state.getD "Unknown" ++ " (Type " ++
       r.typ.getD "Unknown" ++ ")"
   | none => "") ++
  ", Product: " ++ r.family ++ ", Sales: $" ++ formatFix2 r.sales ++
  ", Promotion: " ++ (if r.onpromotion.getD 0 = 1 then "Yes" else "No") ++
  ", Holiday: " ++ (if r.is_holiday.getD 0 = 1 then "Yes" else "No") ++
  (match r.dcoilwtico with
   | some p => ", Oil Price: $" ++ formatFix2 p
   | none => "")

/-- Python truthiness of an optional numeric field
(`'k' in row and row['k']`). -/
def optTruthy : Option ℤ → Bool
  | none => false
  | some z => z ≠ 0

/-- `utils/pinecone_client.py` `PineconeClient.create_record_text`. -/
def pinecone_create_record_text (r : VecRecord) : String :=
  "On " ++ isoOf r.date ++ ", Store " ++ toString r.store_nbr ++
  (match r.city with
   | some c => " in " ++ c
   | none => "") ++
  " sold " ++ r.family ++ " with sales of $" ++ formatFix2 r.sales ++
  (if optTruthy r.onpromotion then " (on promotion)" else "") ++
  (if optTruthy r.is_holiday then " during a holiday" else "")

/-! ### Local vector collection and deterministic IDs
(`utils/vector_db.py` `add_records_to_db`, lines 97-145)

The record ID is `f"{date}_{store_nbr}_{family.replace(' ', '_')}"`
(line 131).  The ChromaDB collection itself is a boundary collaborator.
Modelled from the spec: the collection stores one entry per ID and writing
an existing ID overwrites it ("re-embedding the same logical record
overwrites rather than duplicates it", spec §3), so it is an association
list keyed by ID with in-place replacement. -/

/-- Metadata built for each record (lines 110-127). -/
structure RecMeta where
  date : String
  store_nbr : ℕ
  family : String
  sales : ℚ
  city : Option String
  state : Option String
  onpromotion : Option ℤ
  is_holiday : Option ℤ
deriving DecidableEq, Repr

def recMetadata (r : VecRecord) : RecMeta :=
  { date := isoOf r.date
    store_nbr := r.store_nbr
    family := r.family
    sales := r.sales
    city := r.city
    state := r.state
    onpromotion := r.onpromotion
    is_holiday := r.is_holiday }

/-- The deterministic record ID (line 131). -/
def record_id (date : PyDate) (store : ℕ) (family : String) : String :=
  isoOf date ++ "_" ++ toString store ++ "_" ++ family.replace " " "_"

abbrev Collection := List (String × (String × RecMeta))

/-- Modelled from the spec: ID-keyed write with overwrite (spec §3, §4.13). -/
def collAdd (c : Collection) (id : String) (payload : String × RecMeta) :
    Collection :=
  if c.any (fun e => e.1 = id) then
    c.map (fun e => if e.1 = id then (id, payload) else e)
  else c ++ [(id, payload)]

def collCount (c : Collection) : ℕ := c.length

def collLookup (c : Collection) (id : String) : Option (String × RecMeta) :=
  (c.find? (fun e => e.1 = id)).map (fun e => e.2)

/-- Adding one record: text, metadata and ID are built as in the source. -/
def addRecord (c : Collection) (r : VecRecord) : Collection :=
  collAdd c (record_id r.date r.store_nbr r.family)
    (create_record_text r, recMetadata r)

/-- `add_records_to_db` over a record list (batching does not change the
final contents). -/
def add_records_to_db (c : Collection) (rows : List VecRecord) : Collection :=
  rows.foldl addRecord c

/-! ### Redis writes across the system (`scripts/incremental_build.py` C9)

Every Redis write command issued by any component of this repository:
  * `feature_store.py` line 64: `INCRBYFLOAT feature:sales_volume:{family}`;
  * `feature_store_batch.py` lines 75-77: `INCRBYFLOAT` of the three bucket
    keys; line 86 `LPUSH training_data_buffer`; line 100
    `LTRIM training_data_buffer 0 100000`;
  * `train.py` line 41: `DEL training_data_buffer`;
  * `producer.py` line 56, `producer_batch.py` line 73,
    `backfill_data.py` line 70: `XADD store_sales_stream`;
  * `feature_store.py` line 19, `feature_store_batch.py` line 27:
    `XGROUP CREATE store_sales_stream ml_feature_group 0 MKSTREAM` (creates
    the stream key if absent).
The incremental builder (`scripts/incremental_build.py` line 175) reads
`GET training_buffer` as its live-data source. -/

inductive RVal where
  | num (q : ℚ)
  | list (items : List (List (String × String)))
  | stream (entries : List (List (String × String)))
deriving DecidableEq

inductive RedisWrite where
  | incrbyfloat (key : String) (v : ℚ)
  | lpush (key : String) (item : List (String × String))
  | ltrim (key : String) (start stop : ℤ)
  | del (key : String)
  | xadd (key : String) (entry : List (String × String))
  | xgroupCreate (key : String) (group : String)
deriving DecidableEq

def writeKey : RedisWrite → String
  | .incrbyfloat k _ => k
  | .lpush k _ => k
  | .ltrim k _ _ => k
  | .del k => k
  | .xadd k _ => k
  | .xgroupCreate k _ => k

/-- The write commands this system's components can issue. -/
inductive SystemWrite : RedisWrite → Prop where
  | contVolume (fam : String) (v : ℚ) :
      SystemWrite (.incrbyfloat ("feature:sales_volume:" ++ fam) v)
  | batchDaily (t : String) (v : ℚ) :
      SystemWrite (.incrbyfloat ("feature:sales_daily:" ++ t) v)
  | batchWeekly (t : String) (v : ℚ) :
      SystemWrite (.incrbyfloat ("feature:sales_weekly:" ++ t) v)
  | batchMonthly (t : String) (v : ℚ) :
      SystemWrite (.incrbyfloat ("feature:sales_monthly:" ++ t) v)
  | batchPush (item : List (String × String)) :
      SystemWrite (.lpush "training_data_buffer" item)
  | batchTrim : SystemWrite (.ltrim "training_data_buffer" 0 100000)
  | trainClear : SystemWrite (.del "training_data_buffer")
  | producerAppend (entry : List (String × String)) :
      SystemWrite (.xadd "store_sales_stream" entry)
  | groupCreate : SystemWrite (.xgroupCreate "store_sales_stream" "ml_feature_group")

def RedisState := String → Option RVal

/-- `LTRIM start stop` with Redis index semantics (negative indices count
from the end; the kept range is inclusive). -/
def ltrimList (l : List (List (String × String))) (start stop : ℤ) :
    List (List (String × String)) :=
  let n : ℤ := l.length
  let s := if start < 0 then max 0 (n + start) else start
  let e := if stop < 0 then n + stop else stop
  if e < s then [] else (l.drop s.toNat).take (e - s + 1).toNat

def applyWrite (st : RedisState) (w : RedisWrite) : RedisState :=
  fun k =>
    if k = writeKey w then
      match w with
      | .incrbyfloat _ v =>
        some (.num ((match st k with | some (.num q) => q | _ => 0) + v))
      | .lpush _ item =>
        some (.list (item :: (match st k with | some (.list l) => l | _ => [])))
      | .ltrim _ a b =>
        some (.list (ltrimList (match st k with | some (.list l) => l | _ => []) a b))
      | .del _ => none
      | .xadd _ entry =>
        some (.stream ((match st k with | some (.stream l) => l | _ => []) ++ [entry]))
      | .xgroupCreate _ _ =>
        some (.stream (match st k with | some (.stream l) => l | _ => []))
    else st k

/-- States reachable from an empty store by this system's writes alone. -/
inductive ReachableState : RedisState → Prop where
  | init : ReachableState (fun _ => none)
  | step {st : RedisState} {w : RedisWrite} :
      ReachableState st → SystemWrite w → ReachableState (applyWrite st w)

/-- The incremental builder's live-data read: `GET training_buffer`
(`scripts/incremental_build.py` line 175). -/
def builderLiveRead (st : RedisState) : Option RVal := st "training_buffer"

/-! ## Theorems -/

/-- `batchStep` never raises when the `sales` field is absent or parses. -/
lemma batchStep_salesOk (st : BatchState) (mid : ℕ)
    (fields : List (String × String)) (hok : salesFieldOk fields = true) :
    ∃ q : ℚ, (match dictGet (pairsToDict fields) "sales" with
              | none => some (0 : ℚ)
              | some s => parseFloat s) = some q := by
  unfold salesFieldOk at hok
  cases hs : dictGet (pairsToDict fields) "sales" with
  | none => exact ⟨0, by simp [hs]⟩
  | some s =>
    rw [hs] at hok
    obtain ⟨q, hq⟩ := Option.isSome_iff_exists.mp hok
    exact ⟨q, by simp [hs, hq]⟩

/-- C1 (amended): a malformed message whose `sales` field is absent or
numeric is acknowledged and otherwise leaves the state untouched. -/
theorem c1_malformed_ack_skip (st : BatchState) (mid : ℕ)
    (fields : List (String × String))
    (hok : salesFieldOk fields = true)
    (hmal : isMalformedEvent fields = true) :
    batchStep st mid fields = some { st with acked := st.acked ++ [mid] } := by
  obtain ⟨q, hq⟩ := batchStep_salesOk st mid fields hok
  simp only [isMalformedEvent] at hmal
  simp only [batchStep, hq]
  cases hf : dictGet (pairsToDict fields) "family" with
  | none => simp [hf]
  | some fam =>
    cases hd : dictGet (pairsToDict fields) "date" with
    | none => simp [hf, hd]
    | some ds =>
      rw [hf, hd] at hmal
      simp only [Bool.or_eq_true, decide_eq_true_eq, Option.isNone_iff_eq_none] at hmal
      by_cases hfd : fam = "" ∨ ds = ""
      · simp [hf, hd, hfd]
      · have hdp : strptimeYmd ds = none := by
          rcases hmal with (h | h) | h
          · exact absurd (Or.inl h) hfd
          · exact absurd (Or.inr h) hfd
          · exact h
        simp [hf, hd, hfd, hdp]

/-- C1 witness: a concrete malformed message (bad date) is acknowledged and
contributes nothing. -/
theorem c1_malformed_ack_skip_witness :
    batchStep initialBatchState 3
        [("family", "GROCERY I"), ("date", "not-a-date"), ("sales", "3.5")] =
      some { initialBatchState with acked := [] ++ [3] } :=
  c1_malformed_ack_skip initialBatchState 3
    [("family", "GROCERY I"), ("date", "not-a-date"), ("sales", "3.5")]
    (by decide) (by decide)

/-- C1 counterexample: a message missing `family` and `date` (malformed per
the claim) whose `sales` field does not parse makes the iteration raise, so
the run aborts and the message is never acknowledged — the claim's
"acknowledges the message" fails. -/
theorem c1_counterexample :
    isMalformedEvent [("sales", "abc")] = true ∧
    batchStep initialBatchState 1 [("sales", "abc")] = none ∧
    (batchRun initialBatchState [(1, [("sales", "abc")])]).acked = [] := by
  refine ⟨by decide, by decide, by decide⟩

/-- Any successful `batchStep` leaves the buffer alone or pushes the parsed
event dict on top. -/
lemma batchStep_buffer_cases (st : BatchState) (mid : ℕ)
    (fields : List (String × String)) (st' : BatchState)
    (h : batchStep st mid fields = some st') :
    st'.buffer = st.buffer ∨ st'.buffer = pairsToDict fields :: st.buffer := by
  simp only [batchStep] at h
  split at h
  · exact absurd h (by simp)
  · split at h
    · split at h
      · left; obtain rfl := Option.some.inj h; rfl
      · split at h
        · left; obtain rfl := Option.some.inj h; rfl
        · right; obtain rfl := Option.some.inj h; rfl
    · left; obtain rfl := Option.some.inj h; rfl

/-- The buffer after a processing loop is the newly pushed events (most
recent first) on top of the initial buffer. -/
lemma runMsgs_buffer (msgs : List (ℕ × List (String × String))) :
    ∀ st : BatchState, ∃ pushed,
      (runMsgs st msgs).buffer = pushed ++ st.buffer := by
  induction msgs with
  | nil => exact fun st => ⟨[], rfl⟩
  | cons m ms ih =>
    intro st
    cases hb : batchStep st m.1 m.2 with
    | none => exact ⟨[], by simp [runMsgs, hb]⟩
    | some st' =>
      obtain ⟨p, hp⟩ := ih st'
      rcases batchStep_buffer_cases st m.1 m.2 st' hb with hc | hc
      · exact ⟨p, by simp [runMsgs, hb, hp, hc]⟩
      · exact ⟨p ++ [pairsToDict m.2], by simp [runMsgs, hb, hp, hc]⟩

/-- C2: after every batch-processor run the training buffer holds at most
100001 entries, and they are the most recently pushed ones: the trimmed
buffer is the 100001-prefix of the pushed-newest-first untrimmed buffer. -/
theorem c2_training_buffer_bound (st : BatchState)
    (msgs : List (ℕ × List (String × String))) :
    (batchRun st msgs).buffer.length ≤ 100001 ∧
    ∃ pushed, (runMsgs st msgs).buffer = pushed ++ st.buffer ∧
      (batchRun st msgs).buffer = (pushed ++ st.buffer).take 100001 := by
  obtain ⟨p, hp⟩ := runMsgs_buffer msgs st
  have hbr : (batchRun st msgs).buffer = ((runMsgs st msgs).buffer).take 100001 := rfl
  refine ⟨?_, p, hp, by rw [hbr, hp]⟩
  rw [hbr, List.length_take]
  exact min_le_left _ _

/-- C10: the continuous feature processor does no malformed-event
filtering.  A message with a parseable `sales` but no `family` increments
the literal key `feature:sales_volume:None` and is acknowledged; a message
whose `sales` is missing or non-numeric raises, so the batch aborts with no
increment and no acknowledgment. -/
theorem c10_no_family_filtering (st : ContState) (mid : ℕ)
    (fields : List (String × String))
    (rest : List (ℕ × List (String × String))) :
    (∀ s v, dictGet (pairsToDict fields) "family" = none →
      dictGet (pairsToDict fields) "sales" = some s → parseFloat s = some v →
      contStep st mid fields =
        some { features := incrFeature st.features "feature:sales_volume:None" v
               acked := st.acked ++ [mid] }) ∧
    ((dictGet (pairsToDict fields) "sales" = none ∨
      ∃ s, dictGet (pairsToDict fields) "sales" = some s ∧ parseFloat s = none) →
      contStep st mid fields = none ∧
      contRunBatch st ((mid, fields) :: rest) = st) := by
  constructor
  · intro s v hf hs hv
    simp only [contStep, hf, hs, hv, pyStrOpt]
    rfl
  · intro h
    have hnone : contStep st mid fields = none := by
      rcases h with hs | ⟨s, hs, hv⟩
      · simp [contStep, hs]
      · simp [contStep, hs, hv]
    exact ⟨hnone, by simp [contRunBatch, hnone]⟩

/-- C10 witness: both behaviours at concrete messages. -/
theorem c10_witness :
    contStep ⟨[], []⟩ 1 [("sales", "3")] =
      some { features := incrFeature [] "feature:sales_volume:None" 3
             acked := [] ++ [1] } ∧
    contStep ⟨[], []⟩ 2 [("family", "GROCERY I"), ("sales", "abc")] = none ∧
    contRunBatch ⟨[], []⟩ [(2, [("family", "GROCERY I"), ("sales", "abc")])] =
      ⟨[], []⟩ := by
  have h1 := (c10_no_family_filtering ⟨[], []⟩ 1 [("sales", "3")] []).1
    "3" 3 (by decide) (by decide) (by rfl)
  have h2 := (c10_no_family_filtering ⟨[], []⟩ 2
    [("family", "GROCERY I"), ("sales", "abc")] []).2
    (Or.inr ⟨"abc", by decide, by decide⟩)
  exact ⟨h1, h2.1, h2.2⟩

/-- The synthetic batch producer attempts every event of its run, whatever
the append outcomes. -/
lemma batchLoop_attempts (ok : ℕ → Bool) :
    ∀ (events : List α) (i : ℕ), (batchLoop ok events i).2 = events.length := by
  intro events
  induction events with
  | nil => intro i; rfl
  | cons e es ih =>
    intro i
    rcases h : batchLoop ok es (i + 1) with ⟨s, a⟩
    have := ih (i + 1)
    rw [h] at this
    simp [batchLoop, h, this]

/-- The chronological replay producer stops at the first append failure:
it emits exactly the events before it and makes no further attempts. -/
lemma replayLoop_stops (ok : ℕ → Bool) :
    ∀ (events : List α) (i k : ℕ), k < events.length → ok (i + k) = false →
    (∀ j, j < k → ok (i + j) = true) →
    replayLoop ok events i = (events.take k, k + 1) := by
  intro events
  induction events with
  | nil => intro i k hk; simp at hk
  | cons e es ih =>
    intro i k hk hfail hsucc
    cases k with
    | zero =>
      have h0 : ok i = false := by simpa using hfail
      simp [replayLoop, h0]
    | succ k' =>
      have hoki : ok i = true := by simpa using hsucc 0 (Nat.succ_pos k')
      have h1 : ok (i + 1 + k') = false := by
        rw [show i + 1 + k' = i + (k' + 1) by omega]; exact hfail
      have h2 : ∀ j, j < k' → ok (i + 1 + j) = true := fun j hj => by
        rw [show i + 1 + j = i + (j + 1) by omega]
        exact hsucc (j + 1) (by omega)
      have hrec := ih (i + 1) k' (by simpa using hk) h1 h2
      simp [replayLoop, hoki, hrec]

/-- C3 (amended): an append failure is non-fatal for both producers, but
only the synthetic batch producer continues with the remaining events; the
chronological replay producer stops its emission loop at the first failed
append.  Either producer terminates fatally exactly when its startup
(connection ping / corpus load) fails. -/
theorem c3_producer_error_handling (connOk loadOk : Bool) (ok : ℕ → Bool)
    (events : List String) (i k : ℕ) :
    ((batchProducerRun connOk loadOk ok events).isSome = (connOk && loadOk)) ∧
    ((replayProducerRun loadOk ok events).isSome = loadOk) ∧
    ((batchLoop ok events i).2 = events.length) ∧
    (k < events.length → ok (i + k) = false → (∀ j, j < k → ok (i + j) = true) →
      replayLoop ok events i = (events.take k, k + 1)) := by
  refine ⟨?_, ?_, batchLoop_attempts ok events i, replayLoop_stops ok events i k⟩
  · cases connOk <;> cases loadOk <;> simp [batchProducerRun]
  · cases loadOk <;> simp [replayProducerRun]

/-- C3 witness: with the second append failing, the replay producer emits
only the first event and stops after 2 attempts, while the batch producer
attempts all 3 events. -/
theorem c3_producer_error_handling_witness :
    replayLoop (fun i => decide (i ≠ 1)) ["a", "b", "c"] 0 = (["a"], 2) ∧
    (batchLoop (fun i => decide (i ≠ 1)) ["a", "b", "c"] 0).2 = 3 := by
  have h := c3_producer_error_handling true true (fun i => decide (i ≠ 1))
    ["a", "b", "c"] 0 1
  exact ⟨h.2.2.2 (by decide) (by decide) (fun j hj => by
    interval_cases j <;> decide), h.2.2.1⟩

/-- C3 counterexample: the claim says a failed append leaves the replay
producer "emitting the remaining events of its run"; with the very first
append failing on a 2-event corpus, `producer.py` emits nothing, makes only
1 of the 2 append attempts, and ends its run. -/
theorem c3_counterexample :
    replayLoop (fun i => decide (i ≠ 0)) ["e1", "e2"] 0 = ([], 1) ∧
    (replayLoop (fun i => decide (i ≠ 0)) ["e1", "e2"] 0).2 ≠ 2 := by
  refine ⟨by decide, by decide⟩

/-- C4: with scenario inputs equal to the baseline defaults (oil 45.0,
transactions 1500, promotion off) every daily scenario feature vector
equals the baseline vector, so total scenario sales equals total baseline
sales and the reported impact is $0 and 0%. -/
theorem c4_whatif_zero_impact (predict : FeatureRow → ℚ) (dates : List PyDate)
    (store famEnc tx : ℕ) (oil : ℚ) (promo holiday : Bool)
    (hoil : oil = 45) (htx : tx = 1500) (hpromo : promo = false) :
    (∀ d ∈ dates, scenarioRow store famEnc promo tx oil holiday d =
      baselineRow store famEnc promo tx oil holiday d) ∧
    (runSim predict dates store famEnc promo tx oil holiday).total_scen =
      (runSim predict dates store famEnc promo tx oil holiday).total_base ∧
    (runSim predict dates store famEnc promo tx oil holiday).diff = 0 ∧
    (runSim predict dates store famEnc promo tx oil holiday).pct = 0 := by
  subst hoil htx hpromo
  have hrow : ∀ d : PyDate, scenarioRow store famEnc false 1500 45 holiday d =
      baselineRow store famEnc false 1500 45 holiday d := fun d => rfl
  have hmaps :
      (dates.map fun d =>
        max 0 (predict (scenarioRow store famEnc false 1500 45 holiday d))) =
      dates.map fun d =>
        max 0 (predict (baselineRow store famEnc false 1500 45 holiday d)) := by
    simp only [hrow]
  refine ⟨fun d _ => hrow d, ?_, ?_, ?_⟩
  · simp [runSim, hmaps]
  · simp [runSim, hmaps]
  · simp only [runSim, hmaps, sub_self]
    split <;> simp

/-- C4 witness at a concrete model, store, family and 7-day horizon. -/
theorem c4_whatif_zero_impact_witness :
    (∀ d ∈ [(⟨2025, 10, 12⟩ : PyDate), ⟨2025, 10, 13⟩, ⟨2025, 10, 14⟩,
        ⟨2025, 10, 15⟩, ⟨2025, 10, 16⟩, ⟨2025, 10, 17⟩, ⟨2025, 10, 18⟩],
      scenarioRow 1 0 false 1500 45 false d = baselineRow 1 0 false 1500 45 false d) ∧
    (runSim (fun r => r.dcoilwtico - 40) [⟨2025, 10, 12⟩, ⟨2025, 10, 13⟩,
        ⟨2025, 10, 14⟩, ⟨2025, 10, 15⟩, ⟨2025, 10, 16⟩, ⟨2025, 10, 17⟩,
        ⟨2025, 10, 18⟩] 1 0 false 1500 45 false).total_scen =
      (runSim (fun r => r.dcoilwtico - 40) [⟨2025, 10, 12⟩, ⟨2025, 10, 13⟩,
        ⟨2025, 10, 14⟩, ⟨2025, 10, 15⟩, ⟨2025, 10, 16⟩, ⟨2025, 10, 17⟩,
        ⟨2025, 10, 18⟩] 1 0 false 1500 45 false).total_base ∧
    (runSim (fun r => r.dcoilwtico - 40) [⟨2025, 10, 12⟩, ⟨2025, 10, 13⟩,
        ⟨2025, 10, 14⟩, ⟨2025, 10, 15⟩, ⟨2025, 10, 16⟩, ⟨2025, 10, 17⟩,
        ⟨2025, 10, 18⟩] 1 0 false 1500 45 false).diff = 0 ∧
    (runSim (fun r => r.dcoilwtico - 40) [⟨2025, 10, 12⟩, ⟨2025, 10, 13⟩,
        ⟨2025, 10, 14⟩, ⟨2025, 10, 15⟩, ⟨2025, 10, 16⟩, ⟨2025, 10, 17⟩,
        ⟨2025, 10, 18⟩] 1 0 false 1500 45 false).pct = 0 :=
  c4_whatif_zero_impact (fun r => r.dcoilwtico - 40)
    [⟨2025, 10, 12⟩, ⟨2025, 10, 13⟩, ⟨2025, 10, 14⟩, ⟨2025, 10, 15⟩,
     ⟨2025, 10, 16⟩, ⟨2025, 10, 17⟩, ⟨2025, 10, 18⟩]
    1 0 1500 45 false false rfl rfl rfl

/-! C5: correctness of the filter-extraction scanners. -/

lemma isWsCh_eq_false_of_digit {c : Char} (h : isDigitCh c = true) :
    isWsCh c = false := by
  by_contra hb
  have hw : isWsCh c = true := by revert hb; cases isWsCh c <;> simp
  simp only [isWsCh, Bool.or_eq_true, decide_eq_true_eq] at hw
  rcases hw with ((((h1 | h1) | h1) | h1) | h1) | h1 <;> subst h1 <;>
    exact absurd h (by decide)

lemma takeWhile_all_append (P : Char → Bool) (ws rest : List Char)
    (h : ∀ c ∈ ws, P c = true) :
    (ws ++ rest).takeWhile P = ws ++ rest.takeWhile P := by
  induction ws with
  | nil => rfl
  | cons c t ih =>
    have hc : P c = true := h c (by simp)
    simp only [List.cons_append, List.takeWhile_cons, hc, if_true]
    rw [ih (fun x hx => h x (by simp [hx]))]

lemma dropWhile_all_append (P : Char → Bool) (ws rest : List Char)
    (h : ∀ c ∈ ws, P c = true) :
    (ws ++ rest).dropWhile P = rest.dropWhile P := by
  induction ws with
  | nil => rfl
  | cons c t ih =>
    have hc : P c = true := h c (by simp)
    simp only [List.cons_append, List.dropWhile_cons, hc, if_true]
    exact ih (fun x hx => h x (by simp [hx]))

lemma takeWhile_head_false (P : Char → Bool) (d : Char) (t : List Char)
    (h : P d = false) : (d :: t).takeWhile P = [] := by
  simp [List.takeWhile_cons, h]

lemma dropWhile_head_false (P : Char → Bool) (d : Char) (t : List Char)
    (h : P d = false) : (d :: t).dropWhile P = d :: t := by
  simp [List.dropWhile_cons, h]

/-- A successful `matchStoreAt` exhibits the `store` + whitespace + digits
decomposition at the head, with the captured value. -/
lemma matchStoreAt_sound {l : List Char} {N : ℕ} (h : matchStoreAt l = some N) :
    ∃ ws ds post, l = ['s', 't', 'o', 'r', 'e'] ++ ws ++ ds ++ post ∧
      ws ≠ [] ∧ (∀ c ∈ ws, isWsCh c = true) ∧
      ds ≠ [] ∧ (∀ c ∈ ds, isDigitCh c = true) ∧ natOfDigits ds = N := by
  unfold matchStoreAt at h
  split at h
  case _ rest =>
    by_cases hwe : (rest.takeWhile isWsCh).isEmpty
    · rw [if_pos hwe] at h; exact absurd h (by simp)
    · rw [if_neg hwe] at h
      by_cases hde : ((rest.dropWhile isWsCh).takeWhile isDigitCh).isEmpty
      · rw [if_pos hde] at h; exact absurd h (by simp)
      · rw [if_neg hde] at h
        obtain hN : natOfDigits ((rest.dropWhile isWsCh).takeWhile isDigitCh) = N := by
          simpa using h
        refine ⟨rest.takeWhile isWsCh, (rest.dropWhile isWsCh).takeWhile isDigitCh,
          (rest.dropWhile isWsCh).dropWhile isDigitCh, ?_, ?_, ?_, ?_, ?_, hN⟩
        · have h2 : (rest.dropWhile isWsCh).takeWhile isDigitCh ++
              (rest.dropWhile isWsCh).dropWhile isDigitCh = rest.dropWhile isWsCh :=
            List.takeWhile_append_dropWhile _ _
          have h1 : rest.takeWhile isWsCh ++ rest.dropWhile isWsCh = rest :=
            List.takeWhile_append_dropWhile _ _
          simp only [List.cons_append, List.nil_append]
          rw [List.append_assoc, h2, h1]
        · simpa [List.isEmpty_iff] using hwe
        · exact fun x hx => List.mem_takeWhile_imp hx
        · simpa [List.isEmpty_iff] using hde
        · exact fun x hx => List.mem_takeWhile_imp hx
  all_goals exact absurd h (by simp)

/-- `matchStoreAt` succeeds on any `store` + whitespace + digits head. -/
lemma matchStoreAt_complete (ws ds post : List Char) (hw1 : ws ≠ [])
    (hw2 : ∀ c ∈ ws, isWsCh c = true) (hd1 : ds ≠ [])
    (hd2 : ∀ c ∈ ds, isDigitCh c = true) :
    (matchStoreAt (['s', 't', 'o', 'r', 'e'] ++ ws ++ ds ++ post)).isSome = true := by
  obtain ⟨d, ds', rfl⟩ : ∃ d ds', ds = d :: ds' := by
    cases ds with
    | nil => exact absurd rfl hd1
    | cons d ds' => exact ⟨d, ds', rfl⟩
  have hd : isDigitCh d = true := hd2 d (by simp)
  have hwd : isWsCh d = false := isWsCh_eq_false_of_digit hd
  have htw : (ws ++ (d :: (ds' ++ post))).takeWhile isWsCh = ws := by
    rw [takeWhile_all_append _ _ _ hw2, takeWhile_head_false _ _ _ hwd,
      List.append_nil]
  have hdw : (ws ++ (d :: (ds' ++ post))).dropWhile isWsCh = d :: (ds' ++ post) := by
    rw [dropWhile_all_append _ _ _ hw2, dropWhile_head_false _ _ _ hwd]
  have hl : ['s', 't', 'o', 'r', 'e'] ++ ws ++ (d :: ds') ++ post =
      's' :: 't' :: 'o' :: 'r' :: 'e' :: (ws ++ (d :: (ds' ++ post))) := by
    simp [List.append_assoc]
  rw [hl]
  simp only [matchStoreAt]
  rw [htw, hdw]
  rw [if_neg (by simpa [List.isEmpty_iff] using hw1)]
  have hne : ((d :: (ds' ++ post)).takeWhile isDigitCh).isEmpty = false := by
    simp [List.takeWhile_cons, hd]
  rw [if_neg (by simp [hne])]
  rfl

/-- `searchStore` succeeds whenever some position matches. -/
lemma searchStore_isSome_append (pre l : List Char)
    (h : (matchStoreAt l).isSome = true) :
    (searchStore (pre ++ l)).isSome = true := by
  induction pre with
  | nil =>
    cases l with
    | nil => exact absurd h (by simp [matchStoreAt])
    | cons c t =>
      simp only [List.nil_append, searchStore]
      cases hm : matchStoreAt (c :: t) with
      | some n => simp
      | none => rw [hm] at h; exact absurd h (by simp)
  | cons c pre' ih =>
    simp only [List.cons_append, searchStore]
    cases hm : matchStoreAt (c :: (pre' ++ l)) with
    | some n => simp
    | none => exact ih

/-- `searchStore` soundness over the whole text. -/
lemma searchStore_sound : ∀ (l : List Char) (N : ℕ),
    searchStore l = some N → ContainsStoreNumVal l N := by
  intro l
  induction l with
  | nil => intro N h; exact absurd h (by simp [searchStore])
  | cons c t ih =>
    intro N h
    simp only [searchStore] at h
    cases hm : matchStoreAt (c :: t) with
    | some n =>
      rw [hm] at h
      obtain rfl : n = N := by simpa using h
      obtain ⟨ws, ds, post, hdec, hw1, hw2, hd1, hd2, hN⟩ := matchStoreAt_sound hm
      exact ⟨[], ws, ds, post, by simpa using hdec, hw1, hw2, hd1, hd2, hN⟩
    | none =>
      rw [hm] at h
      simp only at h
      obtain ⟨pre, ws, ds, post, hdec, hw1, hw2, hd1, hd2, hN⟩ := ih N h
      exact ⟨c :: pre, ws, ds, post, by simp [hdec], hw1, hw2, hd1, hd2, hN⟩

/-- `searchStore` completeness over the whole text. -/
lemma searchStore_complete {l : List Char} (h : ContainsStoreNum l) :
    (searchStore l).isSome = true := by
  obtain ⟨N, pre, ws, ds, post, hdec, hw1, hw2, hd1, hd2, hN⟩ := h
  subst hdec
  have hassoc : pre ++ ['s', 't', 'o', 'r', 'e'] ++ ws ++ ds ++ post =
      pre ++ (['s', 't', 'o', 'r', 'e'] ++ ws ++ ds ++ post) := by
    simp [List.append_assoc]
  rw [hassoc]
  exact searchStore_isSome_append pre _
    (matchStoreAt_complete ws ds post hw1 hw2 hd1 hd2)

/-- A successful `matchDateAt` returns an ISO-shaped prefix of the text. -/
lemma matchDateAt_sound {l m : List Char} (h : matchDateAt l = some m) :
    IsIsoShaped m ∧ ∃ post, l = m ++ post := by
  unfold matchDateAt at h
  split at h
  case _ a b c d e f g hh tl =>
    split at h
    case isTrue hcond =>
      obtain rfl := Option.some.inj h
      simp only [Bool.and_eq_true] at hcond
      obtain ⟨⟨⟨⟨⟨⟨⟨h1, h2⟩, h3⟩, h4⟩, h5⟩, h6⟩, h7⟩, h8⟩ := hcond
      exact ⟨⟨a, b, c, d, e, f, g, hh, rfl, h1, h2, h3, h4, h5, h6, h7, h8⟩,
        tl, by simp⟩
    case isFalse => exact absurd h (by simp)
  case _ => exact absurd h (by simp)

/-- `matchDateAt` succeeds on any ISO-shaped head. -/
lemma matchDateAt_complete {m : List Char} (hm : IsIsoShaped m)
    (post : List Char) : (matchDateAt (m ++ post)).isSome = true := by
  obtain ⟨a, b, c, d, e, f, g, hh, rfl, h1, h2, h3, h4, h5, h6, h7, h8⟩ := hm
  simp only [List.cons_append, List.nil_append]
  simp [matchDateAt, h1, h2, h3, h4, h5, h6, h7, h8]

lemma searchDate_isSome_append (pre l : List Char)
    (h : (matchDateAt l).isSome = true) :
    (searchDate (pre ++ l)).isSome = true := by
  induction pre with
  | nil =>
    cases l with
    | nil => exact absurd h (by simp [matchDateAt])
    | cons c t =>
      simp only [List.nil_append, searchDate]
      cases hm : matchDateAt (c :: t) with
      | some m => simp
      | none => rw [hm] at h; exact absurd h (by simp)
  | cons c pre' ih =>
    simp only [List.cons_append, searchDate]
    cases hm : matchDateAt (c :: (pre' ++ l)) with
    | some m => simp
    | none => exact ih

lemma searchDate_sound : ∀ (l m : List Char),
    searchDate l = some m → ContainsIsoSub l m := by
  intro l
  induction l with
  | nil => intro m h; exact absurd h (by simp [searchDate])
  | cons c t ih =>
    intro m h
    simp only [searchDate] at h
    cases hm : matchDateAt (c :: t) with
    | some m' =>
      rw [hm] at h
      obtain rfl : m' = m := by simpa using h
      obtain ⟨hshape, post, hdec⟩ := matchDateAt_sound hm
      exact ⟨hshape, [], post, by simpa using hdec⟩
    | none =>
      rw [hm] at h
      simp only at h
      obtain ⟨hshape, pre, post, hdec⟩ := ih m h
      exact ⟨hshape, c :: pre, post, by simp [hdec]⟩

lemma searchDate_complete {l : List Char} (h : ContainsIsoDate l) :
    (searchDate l).isSome = true := by
  obtain ⟨m, hshape, pre, post, hdec⟩ := h
  subst hdec
  have hassoc : pre ++ m ++ post = pre ++ (m ++ post) := by
    simp [List.append_assoc]
  rw [hassoc]
  exact searchDate_isSome_append pre _ (matchDateAt_complete hshape post)

/-- C5: filter extraction of the AI Data Analyst page.  A question
containing `store N` (case-insensitively) yields a filter mapping
`store_nbr` to a contained store number; a question containing a
`YYYY-MM-DD`-shaped substring yields a filter mapping `date` to exactly
such a contained substring; a question with neither pattern yields no
filter object at all. -/
theorem c5_filter_extraction (prompt : String) :
    (ContainsStoreNum (lowerStr prompt).data →
      ∃ fl N, parse_query_filters prompt = some fl ∧ fl.store_nbr = some N ∧
        ContainsStoreNumVal (lowerStr prompt).data N) ∧
    (ContainsIsoDate prompt.data →
      ∃ fl d, parse_query_filters prompt = some fl ∧ fl.date = some d ∧
        ContainsIsoSub prompt.data d.data) ∧
    (¬ ContainsStoreNum (lowerStr prompt).data →
      ¬ ContainsIsoDate prompt.data → parse_query_filters prompt = none) := by
  refine ⟨?_, ?_, ?_⟩
  · intro h
    have hs := searchStore_complete h
    obtain ⟨N, hN⟩ := Option.isSome_iff_exists.mp hs
    refine ⟨⟨searchStore (lowerStr prompt).data,
      (searchDate prompt.data).map (fun l => (⟨l⟩ : String))⟩, N, ?_, ?_,
      searchStore_sound _ N hN⟩
    · unfold parse_query_filters
      rw [if_neg (by simp [hN])]
    · simpa using hN
  · intro h
    have hs := searchDate_complete h
    obtain ⟨m, hm⟩ := Option.isSome_iff_exists.mp hs
    refine ⟨⟨searchStore (lowerStr prompt).data,
      (searchDate prompt.data).map (fun l => (⟨l⟩ : String))⟩, ⟨m⟩, ?_, ?_,
      searchDate_sound _ m hm⟩
    · unfold parse_query_filters
      rw [if_neg (by simp [hm])]
    · simp [hm]
  · intro h1 h2
    have hs : searchStore (lowerStr prompt).data = none := by
      cases hh : searchStore (lowerStr prompt).data with
      | none => rfl
      | some N => exact absurd ⟨N, searchStore_sound _ N hh⟩ h1
    have hd : searchDate prompt.data = none := by
      cases hh : searchDate prompt.data with
      | none => rfl
      | some m => exact absurd ⟨m, searchDate_sound _ m hh⟩ h2
    simp [parse_query_filters, hs, hd]

/-- C5 witness: a question with both patterns gets both exact filters; a
question with neither gets `None`. -/
theorem c5_filter_extraction_witness :
    (∃ fl N, parse_query_filters "store 12 on 2017-08-15" = some fl ∧
      fl.store_nbr = some N ∧
      ContainsStoreNumVal (lowerStr "store 12 on 2017-08-15").data N) ∧
    (∃ fl d, parse_query_filters "store 12 on 2017-08-15" = some fl ∧
      fl.date = some d ∧
      ContainsIsoSub ("store 12 on 2017-08-15").data d.data) ∧
    parse_query_filters "hello" = none := by
  refine ⟨(c5_filter_extraction "store 12 on 2017-08-15").1
      ⟨12, [], [' '], ['1', '2'],
        [' ', 'o', 'n', ' ', '2', '0', '1', '7', '-', '0', '8', '-', '1', '5'],
        by decide, by decide, by decide, by decide, by decide, by decide⟩,
    (c5_filter_extraction "store 12 on 2017-08-15").2.1
      ⟨['2', '0', '1', '7', '-', '0', '8', '-', '1', '5'],
        ⟨'2', '0', '1', '7', '0', '8', '1', '5', by decide, by decide, by decide,
          by decide, by decide, by decide, by decide, by decide, by decide⟩,
        ['s', 't', 'o', 'r', 'e', ' ', '1', '2', ' ', 'o', 'n', ' '], [],
        by decide⟩,
    (c5_filter_extraction "hello").2.2
      (fun hc => absurd (searchStore_complete hc) (by decide))
      (fun hc => absurd (searchDate_complete hc) (by decide))⟩

/-! C6: helper lemmas for the smart-sampling count. -/

lemma countP_flatMap_zero (p : SalesRow → Bool) (f : ℕ × String → List SalesRow) :
    ∀ keys : List (ℕ × String), (∀ k' ∈ keys, (f k').countP p = 0) →
    (keys.flatMap f).countP p = 0 := by
  intro keys
  induction keys with
  | nil => intro _; rfl
  | cons a t ih =>
    intro h
    rw [List.flatMap_cons, List.countP_append, h a (by simp),
      ih (fun k' hk' => h k' (by simp [hk']))]

lemma countP_flatMap_single (p : SalesRow → Bool) (f : ℕ × String → List SalesRow) :
    ∀ (keys : List (ℕ × String)) (k : ℕ × String), k ∈ keys → keys.Nodup →
    (∀ k' ∈ keys, k' ≠ k → (f k').countP p = 0) →
    (keys.flatMap f).countP p = (f k).countP p := by
  intro keys
  induction keys with
  | nil => intro k hk; cases hk
  | cons a t ih =>
    intro k hk hnd hzero
    obtain ⟨hat, hndt⟩ := List.nodup_cons.mp hnd
    rw [List.flatMap_cons, List.countP_append]
    rcases List.mem_cons.mp hk with rfl | hkt
    · rw [countP_flatMap_zero p f t
        (fun k' hk' => hzero k' (by simp [hk']) (fun he => hat (he ▸ hk'))),
        Nat.add_zero]
    · rw [hzero a (by simp) (fun he => hat (he ▸ hkt)), ih k hkt hndt
        (fun k' hk' hne => hzero k' (by simp [hk']) hne), Nat.zero_add]

/-- C6: the smart-sampling output keeps every row within 180 days of the
corpus maximum and every old `(store_nbr, family)` group of at most 10
rows whole; it adds nothing outside the corpus; and each old group of more
than 10 rows contributes exactly `round(0.2 * n)` of its own rows. -/
theorem c6_smart_sampling (sampler : List SalesRow → List SalesRow)
    (rows : List SalesRow) (m : ℤ)
    (hmax : (rows.map (fun r => r.date)).maximum = some m)
    (hsub : ∀ g, (sampler g).Sublist g)
    (hlen : ∀ g, (sampler g).length = sampleSize g.length) :
    (∀ r ∈ rows, m - 180 ≤ r.date → r ∈ smartSample sampler rows) ∧
    (∀ r ∈ rows, r.date < m - 180 →
      (oldGroup (rows.filter (fun x => decide (x.date < m - 180))) (rowKey r)).length ≤ 10 →
      r ∈ smartSample sampler rows) ∧
    (∀ r ∈ smartSample sampler rows, r ∈ rows) ∧
    (∀ k ∈ groupKeys (rows.filter (fun x => decide (x.date < m - 180))),
      10 < (oldGroup (rows.filter (fun x => decide (x.date < m - 180))) k).length →
      (smartSample sampler rows).countP
          (fun r => decide (r.date < m - 180) && decide (rowKey r = k)) =
        sampleSize (oldGroup (rows.filter (fun x => decide (x.date < m - 180))) k).length) := by
  have hss : smartSample sampler rows =
      ((rows.filter (fun r => decide (m - 180 ≤ r.date)) ++
        (groupKeys (rows.filter (fun r => decide (r.date < m - 180)))).flatMap
          (fun k =>
            let g := oldGroup (rows.filter (fun r => decide (r.date < m - 180))) k
            if 10 < g.length then sampler g else g)).mergeSort
        (fun a b => decide (a.date ≤ b.date))) := by
    unfold smartSample
    rw [hmax]
  refine ⟨?_, ?_, ?_, ?_⟩
  · intro r hr hd
    rw [hss, List.mem_mergeSort, List.mem_append]
    exact Or.inl (List.mem_filter.mpr ⟨hr, by simpa using hd⟩)
  · intro r hr hd hsize
    rw [hss, List.mem_mergeSort, List.mem_append]
    refine Or.inr (List.mem_flatMap.mpr ⟨rowKey r, ?_, ?_⟩)
    · exact List.mem_dedup.mpr (List.mem_map_of_mem rowKey
        (List.mem_filter.mpr ⟨hr, by simpa using hd⟩))
    · simp only [if_neg (not_lt.mpr hsize)]
      exact List.mem_filter.mpr
        ⟨List.mem_filter.mpr ⟨hr, by simpa using hd⟩, by simp⟩
  · intro r hr
    rw [hss, List.mem_mergeSort, List.mem_append] at hr
    rcases hr with hr | hr
    · exact List.mem_of_mem_filter hr
    · obtain ⟨k, hk, hrf⟩ := List.mem_flatMap.mp hr
      by_cases hlarge : 10 <
          (oldGroup (rows.filter (fun r => decide (r.date < m - 180))) k).length
      · rw [if_pos hlarge] at hrf
        exact List.mem_of_mem_filter (List.mem_of_mem_filter
          ((hsub _).subset hrf))
      · rw [if_neg hlarge] at hrf
        exact List.mem_of_mem_filter (List.mem_of_mem_filter hrf)
  · intro k hk hlarge
    have hperm := List.mergeSort_perm
      (rows.filter (fun r => decide (m - 180 ≤ r.date)) ++
        (groupKeys (rows.filter (fun r => decide (r.date < m - 180)))).flatMap
          (fun k =>
            let g := oldGroup (rows.filter (fun r => decide (r.date < m - 180))) k
            if 10 < g.length then sampler g else g))
      (fun a b => decide (a.date ≤ b.date))
    rw [hss, hperm.countP_eq, List.countP_append]
    have hrecent : (rows.filter (fun r => decide (m - 180 ≤ r.date))).countP
        (fun r => decide (r.date < m - 180) && decide (rowKey r = k)) = 0 := by
      rw [List.countP_eq_zero]
      intro a ha
      have := (List.mem_filter.mp ha).2
      simp only [decide_eq_true_eq] at this
      simp [not_lt.mpr this]
    have hgroups : ((groupKeys (rows.filter (fun r => decide (r.date < m - 180)))).flatMap
        (fun k =>
          let g := oldGroup (rows.filter (fun r => decide (r.date < m - 180))) k
          if 10 < g.length then sampler g else g)).countP
        (fun r => decide (r.date < m - 180) && decide (rowKey r = k)) =
        (sampler (oldGroup (rows.filter (fun r => decide (r.date < m - 180))) k)).countP
          (fun r => decide (r.date < m - 180) && decide (rowKey r = k)) := by
      have hmain := countP_flatMap_single
        (fun r => decide (r.date < m - 180) && decide (rowKey r = k))
        (fun k' =>
          let g := oldGroup (rows.filter (fun r => decide (r.date < m - 180))) k'
          if 10 < g.length then sampler g else g)
        (groupKeys (rows.filter (fun r => decide (r.date < m - 180)))) k hk
        (List.nodup_dedup _) ?_
      · rw [hmain]
        simp only [if_pos hlarge]
      · intro k' hk' hne
        rw [List.countP_eq_zero]
        intro a ha
        have hag : a ∈ oldGroup (rows.filter (fun r => decide (r.date < m - 180))) k' := by
          by_cases hl' : 10 <
              (oldGroup (rows.filter (fun r => decide (r.date < m - 180))) k').length
          · simp only [if_pos hl'] at ha
            exact (hsub _).subset ha
          · simp only [if_neg hl'] at ha
            exact ha
        have hkey : rowKey a = k' := by
          have := (List.mem_filter.mp hag).2
          simpa using this
        simp [hkey, hne]
    rw [hrecent, hgroups, Nat.zero_add]
    have hall : (sampler (oldGroup (rows.filter (fun r => decide (r.date < m - 180))) k)).countP
        (fun r => decide (r.date < m - 180) && decide (rowKey r = k)) =
        (sampler (oldGroup (rows.filter (fun r => decide (r.date < m - 180))) k)).length := by
      rw [List.countP_eq_length]
      intro a ha
      have hag := (hsub _).subset ha
      have h1 := (List.mem_filter.mp hag).2
      have h2 := (List.mem_filter.mp (List.mem_of_mem_filter hag)).2
      simp only [decide_eq_true_eq] at h1 h2
      simp [h1, h2]
    rw [hall, hlen]

/-- C6 witness: a concrete corpus exercising all three rules, with the
explicit `take`-based sampler. -/
theorem c6_smart_sampling_witness :
    (∀ r ∈ [(⟨1000, 1, "A", 5⟩ : SalesRow), ⟨100, 1, "A", 1⟩, ⟨100, 1, "A", 2⟩,
        ⟨100, 2, "B", 3⟩],
      (1000 : ℤ) - 180 ≤ r.date →
      r ∈ smartSample (fun l => l.take (sampleSize l.length))
        [⟨1000, 1, "A", 5⟩, ⟨100, 1, "A", 1⟩, ⟨100, 1, "A", 2⟩, ⟨100, 2, "B", 3⟩]) ∧
    (∀ r ∈ [(⟨1000, 1, "A", 5⟩ : SalesRow), ⟨100, 1, "A", 1⟩, ⟨100, 1, "A", 2⟩,
        ⟨100, 2, "B", 3⟩],
      r.date < 1000 - 180 →
      (oldGroup ([(⟨1000, 1, "A", 5⟩ : SalesRow), ⟨100, 1, "A", 1⟩, ⟨100, 1, "A", 2⟩,
          ⟨100, 2, "B", 3⟩].filter (fun x => decide (x.date < 1000 - 180)))
        (rowKey r)).length ≤ 10 →
      r ∈ smartSample (fun l => l.take (sampleSize l.length))
        [⟨1000, 1, "A", 5⟩, ⟨100, 1, "A", 1⟩, ⟨100, 1, "A", 2⟩, ⟨100, 2, "B", 3⟩]) ∧
    (∀ r ∈ smartSample (fun l => l.take (sampleSize l.length))
        [(⟨1000, 1, "A", 5⟩ : SalesRow), ⟨100, 1, "A", 1⟩, ⟨100, 1, "A", 2⟩,
          ⟨100, 2, "B", 3⟩],
      r ∈ [(⟨1000, 1, "A", 5⟩ : SalesRow), ⟨100, 1, "A", 1⟩, ⟨100, 1, "A", 2⟩,
        ⟨100, 2, "B", 3⟩]) := by
  have h := c6_smart_sampling (fun l => l.take (sampleSize l.length))
    [⟨1000, 1, "A", 5⟩, ⟨100, 1, "A", 1⟩, ⟨100, 1, "A", 2⟩, ⟨100, 2, "B", 3⟩]
    1000 (by decide) (fun g => List.take_sublist _ g)
    (fun g => by
      rw [List.length_take]
      have : sampleSize g.length ≤ g.length := by
        unfold sampleSize
        omega
      omega)
  exact ⟨h.1, h.2.1, h.2.2.1⟩

/-! C7: the two record-to-text templates. -/

lemma oil_text_ne_empty (s : String) : "Oil Price: $" ++ s ≠ "" := by
  intro he
  have h1 : ("Oil Price: $" ++ s).data.head? = some 'O' := rfl
  rw [he] at h1
  exact absurd h1 (by decide)

lemma create_record_text_head (r : VecRecord) :
    (create_record_text r).data.head? = some 'D' := by
  cases ho : r.dcoilwtico with
  | none =>
    simp only [create_record_text, ho]
    rfl
  | some p =>
    simp only [create_record_text, ho]
    rw [if_neg (oil_text_ne_empty (formatFix2 p))]
    rfl

lemma pinecone_record_text_head (r : VecRecord) :
    (pinecone_create_record_text r).data.head? = some 'O' := rfl

lemma oil_clause_eq_empty_iff (s : String) :
    (("Oil Price: $" ++ s) = "") = False := eq_false (oil_text_ne_empty s)

set_option maxHeartbeats 2000000 in
/-- C7 (amended): the two backends do **not** share the templating
contract.  The local backend renders exactly the spec's
`Date: {date} ({weekday}), ...` sentence, while the cloud backend renders
`On {date}, Store {n} ...`, so the two functions disagree on every
record. -/
theorem c7_templates_differ (r : VecRecord) :
    create_record_text r = specRecordSentence r ∧
    create_record_text r ≠ pinecone_create_record_text r := by
  constructor
  · cases hc : r.city <;> cases ho : r.dcoilwtico <;>
      by_cases hp : r.onpromotion.getD 0 = 1 <;>
      by_cases hh : r.is_holiday.getD 0 = 1 <;>
      (simp only [create_record_text, specRecordSentence, hc, ho, hp, hh,
        if_true, if_false, oil_clause_eq_empty_iff, eq_self_iff_true]
       apply String.ext
       simp [String.data_append])
  · intro he
    have h := create_record_text_head r
    rw [he, pinecone_record_text_head r] at h
    exact absurd h (by decide)

/-- C7 counterexample: a concrete record on which the two templating
functions render different sentences. -/
theorem c7_counterexample :
    create_record_text
        ⟨⟨2017, 1, 1⟩, 1, "GROCERY I", 10, none, none, none, some 0, some 0, none⟩ ≠
      pinecone_create_record_text
        ⟨⟨2017, 1, 1⟩, 1, "GROCERY I", 10, none, none, none, some 0, some 0, none⟩ := by
  intro he
  have h := create_record_text_head
    ⟨⟨2017, 1, 1⟩, 1, "GROCERY I", 10, none, none, none, some 0, some 0, none⟩
  rw [he, pinecone_record_text_head] at h
  exact absurd h (by decide)

/-! C8: deterministic IDs and idempotent re-embedding. -/

lemma collAdd_mem_key (c : Collection) (id : String) (p : String × RecMeta) :
    (collAdd c id p).any (fun e => e.1 = id) = true := by
  unfold collAdd
  split
  case isTrue h =>
    rw [List.any_eq_true] at h ⊢
    obtain ⟨e, he, hid⟩ := h
    simp only [decide_eq_true_eq] at hid
    exact ⟨(id, p), List.mem_map.mpr ⟨e, he, by simp [hid]⟩, by simp⟩
  case isFalse =>
    rw [List.any_eq_true]
    exact ⟨(id, p), by simp, by simp⟩

lemma collAdd_length_of_mem (c : Collection) (id : String) (p : String × RecMeta)
    (h : c.any (fun e => e.1 = id) = true) :
    (collAdd c id p).length = c.length := by
  unfold collAdd
  rw [if_pos h, List.length_map]

lemma find?_map_replace (id : String) (p : String × RecMeta) :
    ∀ c : Collection, c.any (fun e => e.1 = id) = true →
    (c.map (fun e => if e.1 = id then (id, p) else e)).find?
      (fun e => e.1 = id) = some (id, p) := by
  intro c
  induction c with
  | nil => intro h; simp at h
  | cons e t ih =>
    intro h
    by_cases he : e.1 = id
    · simp [he]
    · have ht : t.any (fun x => x.1 = id) = true := by
        rcases List.any_eq_true.mp h with ⟨x, hx, hpx⟩
        simp only [decide_eq_true_eq] at hpx
        rcases List.mem_cons.mp hx with rfl | hxt
        · exact absurd hpx he
        · exact List.any_eq_true.mpr ⟨x, hxt, by simp [hpx]⟩
      simp [he, ih ht]

lemma collAdd_lookup (c : Collection) (id : String) (p : String × RecMeta) :
    collLookup (collAdd c id p) id = some p := by
  unfold collAdd collLookup
  by_cases h : c.any (fun e => e.1 = id) = true
  · rw [if_pos h, find?_map_replace id p c h]
    rfl
  · rw [if_neg h, List.find?_append]
    have hnone : c.find? (fun e => e.1 = id) = none := by
      rw [List.find?_eq_none]
      exact fun x hx hpx => h (List.any_eq_true.mpr ⟨x, hx, hpx⟩)
    rw [hnone]
    simp [List.find?]

/-- C8: the local-backend record ID depends only on
`(date, store_nbr, family)`, so re-embedding the same logical record keeps
the collection count constant and the latest text/metadata wins. -/
theorem c8_deterministic_id_overwrites (c : Collection) (r r' : VecRecord)
    (h1 : r'.date = r.date) (h2 : r'.store_nbr = r.store_nbr)
    (h3 : r'.family = r.family) :
    record_id r'.date r'.store_nbr r'.family =
      record_id r.date r.store_nbr r.family ∧
    collCount (addRecord (addRecord c r) r') = collCount (addRecord c r) ∧
    collLookup (addRecord (addRecord c r) r')
        (record_id r.date r.store_nbr r.family) =
      some (create_record_text r', recMetadata r') := by
  have hid : record_id r'.date r'.store_nbr r'.family =
      record_id r.date r.store_nbr r.family := by rw [h1, h2, h3]
  refine ⟨hid, ?_, ?_⟩
  · show (collAdd (addRecord c r) (record_id r'.date r'.store_nbr r'.family) _).length =
      (addRecord c r).length
    rw [hid]
    exact collAdd_length_of_mem _ _ _ (collAdd_mem_key c _ _)
  · show collLookup (collAdd (addRecord c r)
      (record_id r'.date r'.store_nbr r'.family) _) _ = _
    rw [hid]
    exact collAdd_lookup _ _ _

/-- C8 witness: re-embedding the same `(date, store, family)` with new
sales keeps one entry whose payload is the latest. -/
theorem c8_deterministic_id_overwrites_witness :
    record_id (⟨2017, 1, 1⟩ : PyDate) 1 "GROCERY I" =
      record_id (⟨2017, 1, 1⟩ : PyDate) 1 "GROCERY I" ∧
    collCount (addRecord (addRecord []
        ⟨⟨2017, 1, 1⟩, 1, "GROCERY I", 10, none, none, none, some 0, some 0, none⟩)
        ⟨⟨2017, 1, 1⟩, 1, "GROCERY I", 20, none, none, none, some 1, some 0, none⟩) =
      collCount (addRecord []
        ⟨⟨2017, 1, 1⟩, 1, "GROCERY I", 10, none, none, none, some 0, some 0, none⟩) ∧
    collLookup (addRecord (addRecord []
        ⟨⟨2017, 1, 1⟩, 1, "GROCERY I", 10, none, none, none, some 0, some 0, none⟩)
        ⟨⟨2017, 1, 1⟩, 1, "GROCERY I", 20, none, none, none, some 1, some 0, none⟩)
        (record_id (⟨2017, 1, 1⟩ : PyDate) 1 "GROCERY I") =
      some (create_record_text
        ⟨⟨2017, 1, 1⟩, 1, "GROCERY I", 20, none, none, none, some 1, some 0, none⟩,
        recMetadata
        ⟨⟨2017, 1, 1⟩, 1, "GROCERY I", 20, none, none, none, some 1, some 0, none⟩) :=
  c8_deterministic_id_overwrites []
    ⟨⟨2017, 1, 1⟩, 1, "GROCERY I", 10, none, none, none, some 0, some 0, none⟩
    ⟨⟨2017, 1, 1⟩, 1, "GROCERY I", 20, none, none, none, some 1, some 0, none⟩
    rfl rfl rfl

/-! C9: no component writes the key the incremental builder reads. -/

/-- A string starting with `'f'` appended with anything differs from
`training_buffer`. -/
lemma f_append_ne_training_buffer {p : String} (s : String)
    (h : p.data.head? = some 'f') : p ++ s ≠ "training_buffer" := by
  intro he
  have hd := congrArg String.data he
  rw [String.data_append] at hd
  cases hp : p.data with
  | nil => rw [hp] at h; exact absurd h (by simp)
  | cons c t =>
    rw [hp] at h
    obtain rfl : c = 'f' := by simpa using h
    rw [hp] at hd
    have hheads := congrArg List.head? hd
    simp only [List.cons_append, List.head?_cons] at hheads
    exact absurd hheads (by decide)

/-- No write this system performs touches the key `training_buffer`. -/
lemma systemWrite_key_ne {w : RedisWrite} (hw : SystemWrite w) :
    "training_buffer" ≠ writeKey w := by
  cases hw with
  | contVolume fam v =>
    exact fun he =>
      @f_append_ne_training_buffer "feature:sales_volume:" fam rfl he.symm
  | batchDaily t v =>
    exact fun he =>
      @f_append_ne_training_buffer "feature:sales_daily:" t rfl he.symm
  | batchWeekly t v =>
    exact fun he =>
      @f_append_ne_training_buffer "feature:sales_weekly:" t rfl he.symm
  | batchMonthly t v =>
    exact fun he =>
      @f_append_ne_training_buffer "feature:sales_monthly:" t rfl he.symm
  | batchPush item =>
    exact fun he => (by decide : ¬("training_buffer" = "training_data_buffer")) he
  | batchTrim =>
    exact fun he => (by decide : ¬("training_buffer" = "training_data_buffer")) he
  | trainClear =>
    exact fun he => (by decide : ¬("training_buffer" = "training_data_buffer")) he
  | producerAppend entry =>
    exact fun he => (by decide : ¬("training_buffer" = "store_sales_stream")) he
  | groupCreate =>
    exact fun he => (by decide : ¬("training_buffer" = "store_sales_stream")) he

/-- C9: in every state reachable from an empty store through this system's
writes alone, the incremental builder's live-data read
(`GET training_buffer`) observes no data. -/
theorem c9_live_read_observes_nothing (st : RedisState)
    (h : ReachableState st) : builderLiveRead st = none := by
  induction h with
  | init => rfl
  | step hreach hsys ih =>
    show applyWrite _ _ "training_buffer" = none
    unfold applyWrite
    rw [if_neg (systemWrite_key_ne hsys)]
    exact ih

/-- C9 witness: a state reached by a batch-processor push and a continuous
increment still yields nothing for the builder's read. -/
theorem c9_live_read_observes_nothing_witness :
    builderLiveRead (applyWrite (applyWrite (fun _ => none)
      (.lpush "training_data_buffer" [("family", "GROCERY I")]))
      (.incrbyfloat ("feature:sales_volume:" ++ "GROCERY I") 3)) = none :=
  c9_live_read_observes_nothing _
    (ReachableState.step
      (ReachableState.step ReachableState.init
        (SystemWrite.batchPush [("family", "GROCERY I")]))
      (SystemWrite.contVolume "GROCERY I" 3))

end RetailForecast
